import Mathlib

/-!
# Verification of `cs231n/layers.py`

Shallow embedding of the layer primitives of `src/assignment2/cs231n/layers.py`
and proofs about them.  NumPy float arrays are embedded as functions from
`Fin`-indexed coordinates into `ℚ` (for the purely rational computations:
SVM loss, convolution, max pooling, dropout) or into `ℝ` (batch
normalization, which takes square roots, and softmax, which takes `exp`/`log`).
Float arithmetic is modelled as exact field arithmetic.  Python dictionaries
with a fixed set of recognized keys are embedded as structures with `Option`
fields (absent key = `none`), and `dict.get(k, default)` as `Option.getD`.
Python exceptions are embedded with an `Except` error type that distinguishes
a `ValueError` (an invalid-argument error raised explicitly) from an
`AttributeError` (the failure raised by attribute access on `None`).
-/

namespace CS231n

open Finset

/-- The kinds of Python exception that the embedded code can raise. -/
inductive PyErr where
  | valueError : String → PyErr
  | attributeError : String → PyErr
  deriving DecidableEq, Repr

/-- `true` exactly on a result that is an invalid-argument (`ValueError`) failure. -/
def resultIsValueError {α : Type} : Except PyErr α → Bool
  | .error (.valueError _) => true
  | _ => false

/-! ## SVM loss (`svm_loss`, layers.py lines 700-724)

`x` has shape `(N, C)`; `y i : Fin C` is the label of example `i` (the claimed
precondition `0 ≤ y[i] < C` is carried by the type).  The code computes
`margins = maximum(0, x - correct_class_scores + 1.0)`, zeroes the label
column (`margins[arange(N), y] = 0`), and divides loss and gradient by
`float(N + eps)` where `eps` defaults to `1e-3`. -/

/-- `correct_class_scores = x[np.arange(N), y]`. -/
def correct_class_scores {N C : ℕ} (x : Fin N → Fin C → ℚ) (y : Fin N → Fin C) :
    Fin N → ℚ :=
  fun i => x i (y i)

/-- The margin matrix after the assignment `margins[np.arange(N), y] = 0`:
entry `(i, j)` is `max(0, x[i,j] - x[i,y i] + 1)` for `j ≠ y i` and `0` at
the label column. -/
def svm_margins {N C : ℕ} (x : Fin N → Fin C → ℚ) (y : Fin N → Fin C) :
    Fin N → Fin C → ℚ :=
  fun i j => if j = y i then 0 else max 0 (x i j - correct_class_scores x y i + 1)

/-- `num_pos = np.sum(margins > 0, axis=1)` (count of positive margins per row),
as a rational number as in the NumPy boolean sum. -/
def svm_num_pos {N C : ℕ} (x : Fin N → Fin C → ℚ) (y : Fin N → Fin C) :
    Fin N → ℚ :=
  fun i => ∑ j, if 0 < svm_margins x y i j then (1 : ℚ) else 0

/-- `svm_loss(x, y, eps=1e-3)`: returns `(loss, dx)`.
`loss = np.sum(margins) / float(N + eps)`;
`dx[margins > 0] = 1`, then `dx[arange(N), y] -= num_pos`, then
`dx /= float(N + eps)`.  (The label entry of `dx` is `0 - num_pos` since the
label margin was zeroed and hence not positive.) -/
def svm_loss {N C : ℕ} (x : Fin N → Fin C → ℚ) (y : Fin N → Fin C)
    (eps : ℚ := 1e-3) : ℚ × (Fin N → Fin C → ℚ) :=
  ((∑ i, ∑ j, svm_margins x y i j) / ((N : ℚ) + eps),
   fun i j =>
     ((if 0 < svm_margins x y i j then (1 : ℚ) else 0)
       - (if j = y i then svm_num_pos x y i else 0)) / ((N : ℚ) + eps))

/-! Spec-side restatement of the C4 claim (amended to the `N + eps`
denominator that the code actually uses).  These definitions follow the
words of the claim, to be compared with the embedded `svm_loss`. -/

/-- Claimed loss: sum over all `i` and `j ≠ y i` of `max(0, x[i,j] - x[i,y_i] + 1)`,
divided by `N + eps`. -/
def svmClaimLoss {N C : ℕ} (x : Fin N → Fin C → ℚ) (y : Fin N → Fin C)
    (eps : ℚ) : ℚ :=
  (∑ i, ∑ j ∈ (univ : Finset (Fin C)).erase (y i),
    max 0 (x i j - x i (y i) + 1)) / ((N : ℚ) + eps)

/-- Claimed count of positive margins of example `i`. -/
def svmClaimNumPos {N C : ℕ} (x : Fin N → Fin C → ℚ) (y : Fin N → Fin C)
    (i : Fin N) : ℚ :=
  (((univ : Finset (Fin C)).erase (y i)).filter
      (fun j => 0 < max 0 (x i j - x i (y i) + 1))).card

/-! ## Dropout (`dropout_forward`, layers.py lines 344-392)

`x` flattened to `n` entries.  The RNG draw `np.random.rand(*x.shape)` is
embedded as an oracle `rng : Fin n → ℚ` of values in `[0, 1)` (the interval
constraint is a hypothesis where needed); the optional `seed` key only
re-seeds that oracle and plays no further role.  With an unrecognized mode
neither branch assigns `out`, so the trailing `out.astype(x.dtype)` raises an
`AttributeError` on `None`. -/

/-- The `dropout_param` dictionary: keys `p`, `mode`, `seed`. -/
structure DropoutParam where
  p : ℚ
  mode : String
  seed : Option ℕ

/-- `dropout_forward(x, dropout_param)`.  Returns `(out, cache)` where
`cache = (dropout_param, mask)`; in train mode
`mask = (rand(*x.shape) >= p)` and `out = x * mask / (1 - p)`, in test mode
`out = x` and `mask = None`. -/
def dropout_forward {n : ℕ} (x : Fin n → ℚ) (dp : DropoutParam)
    (rng : Fin n → ℚ) :
    Except PyErr ((Fin n → ℚ) × (DropoutParam × Option (Fin n → Bool))) :=
  if dp.mode = "train" then
    let mask : Fin n → Bool := fun i => decide (dp.p ≤ rng i)
    .ok (fun i => x i * (if mask i then (1 : ℚ) else 0) / (1 - dp.p),
         (dp, some mask))
  else if dp.mode = "test" then
    .ok (x, (dp, none))
  else
    .error (.attributeError "NoneType object has no attribute astype")

/-! ## Batch normalization forward (`batchnorm_forward`, layers.py lines 112-228)

`x` has shape `(N, D)`.  The Python `** 0.5` / `** (-0.5)` powers are applied
to `sample_var + eps`, which is nonnegative whenever `eps ≥ 0` (the variance
is a mean of squares), so they are embedded as `Real.sqrt` and its inverse. -/

/-- The `bn_param` dictionary: key `mode` is required; `eps`, `momentum`,
`running_mean`, `running_var` are optional (`dict.get` with defaults
`1e-5`, `0.9`, zeros, zeros). -/
structure BNParam (D : ℕ) where
  mode : String
  eps : Option ℝ
  momentum : Option ℝ
  running_mean : Option (Fin D → ℝ)
  running_var : Option (Fin D → ℝ)

/-- Training cache of `batchnorm_forward`:
`(x, N, sample_mean, x_mean, x_mean_squ, sample_var, sample_var_sqrt, x_hat,
gamma, beta, eps)` (the batch size `N` is carried by the types). -/
structure BNCache (N D : ℕ) where
  x : Fin N → Fin D → ℝ
  sample_mean : Fin D → ℝ
  x_mean : Fin N → Fin D → ℝ
  x_mean_squ : Fin N → Fin D → ℝ
  sample_var : Fin D → ℝ
  sample_var_sqrt : Fin D → ℝ
  x_hat : Fin N → Fin D → ℝ
  gamma : Fin D → ℝ
  beta : Fin D → ℝ
  eps : ℝ

/-- Step 1: `sample_mean = np.sum(x, axis=0) / float(N)`. -/
noncomputable def bnSampleMean {N D : ℕ} (x : Fin N → Fin D → ℝ) : Fin D → ℝ :=
  fun d => (∑ i, x i d) / (N : ℝ)

/-- Step 2: `x_mean = x - sample_mean`. -/
noncomputable def bnXMean {N D : ℕ} (x : Fin N → Fin D → ℝ) : Fin N → Fin D → ℝ :=
  fun i d => x i d - bnSampleMean x d

/-- Step 3: `x_mean_squ = x_mean ** 2`. -/
noncomputable def bnXMeanSqu {N D : ℕ} (x : Fin N → Fin D → ℝ) : Fin N → Fin D → ℝ :=
  fun i d => (bnXMean x i d) ^ 2

/-- Step 4: `sample_var = np.sum(x_mean_squ, axis=0) / float(N)`. -/
noncomputable def bnSampleVar {N D : ℕ} (x : Fin N → Fin D → ℝ) : Fin D → ℝ :=
  fun d => (∑ i, bnXMeanSqu x i d) / (N : ℝ)

/-- Step 5: `sample_var_sqrt = (sample_var + eps) ** 0.5`. -/
noncomputable def bnSampleVarSqrt {N D : ℕ} (x : Fin N → Fin D → ℝ) (eps : ℝ) : Fin D → ℝ :=
  fun d => Real.sqrt (bnSampleVar x d + eps)

/-- Step 6: `x_hat = x_mean / sample_var_sqrt`. -/
noncomputable def bnXHat {N D : ℕ} (x : Fin N → Fin D → ℝ) (eps : ℝ) : Fin N → Fin D → ℝ :=
  fun i d => bnXMean x i d / bnSampleVarSqrt x eps d

/-- Step 7: `out = gamma * x_hat + beta` (training mode). -/
noncomputable def bnTrainOut {N D : ℕ} (x : Fin N → Fin D → ℝ) (gamma beta : Fin D → ℝ)
    (eps : ℝ) : Fin N → Fin D → ℝ :=
  fun i d => gamma d * bnXHat x eps i d + beta d

/-- The cache tuple assembled at the end of the training branch. -/
noncomputable def bnTrainCache {N D : ℕ} (x : Fin N → Fin D → ℝ) (gamma beta : Fin D → ℝ)
    (eps : ℝ) : BNCache N D :=
  ⟨x, bnSampleMean x, bnXMean x, bnXMeanSqu x, bnSampleVar x,
   bnSampleVarSqrt x eps, bnXHat x eps, gamma, beta, eps⟩

/-- `batchnorm_forward(x, gamma, beta, bn_param)`.  Returns
`(out, cache, bn_param')` where `bn_param'` is the dictionary after the
in-place writes of `running_mean` / `running_var` (train mode only);
`cache` is `None` outside the training branch.  An unrecognized mode raises
`ValueError('Invalid forward batchnorm mode "%s"' % mode)`. -/
noncomputable def batchnorm_forward {N D : ℕ} (x : Fin N → Fin D → ℝ)
    (gamma beta : Fin D → ℝ) (p : BNParam D) :
    Except PyErr ((Fin N → Fin D → ℝ) × Option (BNCache N D) × BNParam D) :=
  let eps := p.eps.getD 1e-5
  let momentum := p.momentum.getD 0.9
  let running_mean := p.running_mean.getD fun _ => 0
  let running_var := p.running_var.getD fun _ => 0
  if p.mode = "train" then
    .ok (bnTrainOut x gamma beta eps, some (bnTrainCache x gamma beta eps),
      { p with
        running_mean := some fun d =>
          momentum * running_mean d + (1 - momentum) * bnSampleMean x d,
        running_var := some fun d =>
          momentum * running_var d + (1 - momentum) * bnSampleVar x d })
  else if p.mode = "test" then
    .ok (fun i d =>
          gamma d * ((x i d - running_mean d) / Real.sqrt (running_var d + eps))
            + beta d,
         none, p)
  else
    .error (.valueError ("Invalid forward batchnorm mode " ++ p.mode))

/-! ## Batch normalization backward (layers.py lines 231-341)

Both functions consume the training cache; `(sample_var + eps) ** (-0.5)` and
`(g + eps) ** (-0.5)` are embedded as `(Real.sqrt (… + eps))⁻¹`. -/

/-- `batchnorm_backward(dout, cache)`: staged backward pass through the
numbered intermediate nodes 7..1 of the forward computation.  Returns
`(dx, dgamma, dbeta)`. -/
noncomputable def batchnorm_backward {N D : ℕ} (dout : Fin N → Fin D → ℝ)
    (c : BNCache N D) :
    (Fin N → Fin D → ℝ) × (Fin D → ℝ) × (Fin D → ℝ) :=
  -- 7. dgamma, dbeta, dx_hat
  let dgamma : Fin D → ℝ := fun d => ∑ i, dout i d * c.x_hat i d
  let dbeta : Fin D → ℝ := fun d => ∑ i, dout i d
  let dx_hat : Fin N → Fin D → ℝ := fun i d => dout i d * c.gamma d
  -- 6. dx_mean (direct path), dsample_var_sqrt
  let dx_mean1 : Fin N → Fin D → ℝ := fun i d => dx_hat i d / c.sample_var_sqrt d
  let dsample_var_sqrt : Fin D → ℝ := fun d =>
    ∑ i, dx_hat i d * (-1) * c.x_mean i d / (c.sample_var_sqrt d) ^ 2
  -- 5. dsample_var
  let dsample_var : Fin D → ℝ := fun d =>
    dsample_var_sqrt d * 0.5 * (Real.sqrt (c.sample_var d + c.eps))⁻¹
  -- 4. dx_mean_squ
  let dx_mean_squ : Fin N → Fin D → ℝ := fun _ d => dsample_var d * 1 / (N : ℝ)
  -- 3. dx_mean += dx_mean_squ * 2 * x_mean
  let dx_mean : Fin N → Fin D → ℝ := fun i d =>
    dx_mean1 i d + dx_mean_squ i d * 2 * c.x_mean i d
  -- 2. dx = dx_mean, dsample_mean
  let dsample_mean : Fin D → ℝ := fun d => ∑ i, dx_mean i d * (-1)
  -- 1. dx += dsample_mean / N
  let dx : Fin N → Fin D → ℝ := fun i d =>
    dx_mean i d + dsample_mean d * 1 / (N : ℝ)
  (dx, dgamma, dbeta)

/-- `batchnorm_backward_alt(dout, cache)`: the closed-form expression
`dx = (1/N) * gamma * (g+eps)**(-0.5)
        * (N*dout - sum(dout) - (x-f)/(g+eps) * sum(dout*(x-f)))`
with `f = sample_mean`, `g = sample_var`. -/
noncomputable def batchnorm_backward_alt {N D : ℕ} (dout : Fin N → Fin D → ℝ)
    (c : BNCache N D) :
    (Fin N → Fin D → ℝ) × (Fin D → ℝ) × (Fin D → ℝ) :=
  let dgamma : Fin D → ℝ := fun d => ∑ i, dout i d * c.x_hat i d
  let dbeta : Fin D → ℝ := fun d => ∑ i, dout i d
  let f := c.sample_mean
  let g := c.sample_var
  let dx : Fin N → Fin D → ℝ := fun i d =>
    (1 / (N : ℝ)) * c.gamma d * (Real.sqrt (g d + c.eps))⁻¹ *
      ((N : ℝ) * dout i d - (∑ j, dout j d)
        - (c.x i d - f d) / (g d + c.eps) * (∑ j, dout j d * (c.x j d - f d)))
  (dx, dgamma, dbeta)

/-! ## Softmax loss (`softmax_loss`, layers.py lines 727-749)

`np.max(x, axis=1)` requires a nonempty row, carried by the `[NeZero C]`
instance.  The code computes `probs = exp(x - rowmax)`, normalizes each row,
adds `eps` in place, and divides loss and gradient by `float(N + eps)` with
`eps` defaulting to `1e-8`. -/

/-- `np.max(x, axis=1, keepdims=True)`: the maximum of row `i`. -/
noncomputable def rowMax {N C : ℕ} [NeZero C] (x : Fin N → Fin C → ℝ)
    (i : Fin N) : ℝ :=
  (univ : Finset (Fin C)).sup'
    ⟨⟨0, Nat.pos_of_ne_zero (NeZero.ne C)⟩, mem_univ _⟩ (x i)

/-- The row-normalized, `eps`-shifted probabilities:
`probs = np.exp(x - rowmax); probs /= np.sum(probs, axis=1); probs += eps`. -/
noncomputable def smProbs {N C : ℕ} [NeZero C] (x : Fin N → Fin C → ℝ)
    (eps : ℝ) : Fin N → Fin C → ℝ :=
  fun i j =>
    Real.exp (x i j - rowMax x i) / (∑ j', Real.exp (x i j' - rowMax x i)) + eps

/-- `softmax_loss(x, y, eps=1e-8)`: returns `(loss, dx)` with
`loss = -np.sum(np.log(probs[arange(N), y])) / float(N + eps)` and
`dx = probs; dx[arange(N), y] -= 1; dx /= float(N + eps)`. -/
noncomputable def softmax_loss {N C : ℕ} [NeZero C] (x : Fin N → Fin C → ℝ)
    (y : Fin N → Fin C) (eps : ℝ := 1e-8) : ℝ × (Fin N → Fin C → ℝ) :=
  (-(∑ i, Real.log (smProbs x eps i (y i))) / ((N : ℝ) + eps),
   fun i j =>
     (smProbs x eps i j - if j = y i then 1 else 0) / ((N : ℝ) + eps))

/-! ## Convolution forward (`conv_forward_naive`, layers.py lines 422-479)

The original is Python 2, where `/` on integers is floor division, embedded
as `Nat` division in the output sizes.  The inner computation flattens the
receptive window of the padded input in row-major `(c, hh, ww)` order,
multiplies elementwise by the equally flattened filter, and sums the products
per example before adding the bias; the flattening is embedded with
`List.ofFn`/`List.flatten` in the same order.  (With out-of-range window
bounds NumPy slicing would silently truncate; the theorems therefore assume
the evenly-divisible-window configuration, under which every window lies
inside the padded array.) -/

/-- Output height `H' = 1 + (H + 2 * pad - HH) / stride`. -/
def convOutDim (H HH pad stride : ℕ) : ℕ :=
  1 + (H + 2 * pad - HH) / stride

/-- Element `(a, b)` of the zero-padded spatial plane
`x_pad = np.pad(x, ((0,),(0,),(pad,),(pad,)))`, indexed over all of `ℕ`
(positions outside the padded array also read `0`; under the in-range
hypotheses of the theorems they are never accessed). -/
def xPad {N C H W : ℕ} (x : Fin N → Fin C → Fin H → Fin W → ℚ) (pad : ℕ)
    (n : Fin N) (c : Fin C) (a b : ℕ) : ℚ :=
  if h : pad ≤ a ∧ a < pad + H ∧ pad ≤ b ∧ b < pad + W then
    x n c ⟨a - pad, by omega⟩ ⟨b - pad, by omega⟩
  else 0

/-- The flattened elementwise product `tensor * f` of the receptive window of
example `n` at output position `(i, j)` with filter `k`, in row-major
`(c, hh, ww)` order. -/
def convWindowProducts {N C H W F HH WW : ℕ}
    (x : Fin N → Fin C → Fin H → Fin W → ℚ)
    (w : Fin F → Fin C → Fin HH → Fin WW → ℚ)
    (stride pad : ℕ) (n : Fin N) (k : Fin F) (i j : ℕ) : List ℚ :=
  ((List.ofFn fun c : Fin C =>
    ((List.ofFn fun hh : Fin HH =>
      (List.ofFn fun ww : Fin WW =>
        xPad x pad n c (i * stride + hh) (j * stride + ww)
          * w k c hh ww)).flatten)).flatten)

/-- `conv_forward_naive(x, w, b, conv_param)`: the output tensor, of shape
`(N, F, 1 + (H + 2*pad - HH)/stride, 1 + (W + 2*pad - WW)/stride)`;
`out[n, k, i, j]` is the per-example sum of the flattened window products
plus `b[k]`.  The cache is `(x, w, b, conv_param)` verbatim. -/
def conv_forward_naive {N C H W F HH WW : ℕ}
    (x : Fin N → Fin C → Fin H → Fin W → ℚ)
    (w : Fin F → Fin C → Fin HH → Fin WW → ℚ) (b : Fin F → ℚ)
    (stride pad : ℕ) :
    Fin N → Fin F → Fin (convOutDim H HH pad stride)
      → Fin (convOutDim W WW pad stride) → ℚ :=
  fun n k i j => (convWindowProducts x w stride pad n k i j).sum + b k

/-! ## Max pooling (`max_pool_forward_naive` / `max_pool_backward_naive`,
layers.py lines 547-628)

`local.argmax()` flattens the window in row-major order and returns the index
of the first occurrence of the maximum; `np.unravel_index` turns it back into
a window coordinate.  The scan is embedded as a left fold over the row-major
list of window coordinates that replaces its best candidate only on a
strictly larger value, which keeps the earliest maximum. -/

/-- The window coordinates `(a, b)`, `a < ph`, `b < pw`, in row-major order
(the flattening order of `local.argmax()`). -/
def windowIdx (ph pw : ℕ) : List (ℕ × ℕ) :=
  (List.range ph).flatMap fun a => (List.range pw).map fun b => (a, b)

/-- Scan step of `argmax`: fold the candidate list, replacing the current
best only on a strictly larger value. -/
def npArgmaxAux (v : ℕ × ℕ → ℚ) : List (ℕ × ℕ) → ℕ × ℕ → ℕ × ℕ
  | [], best => best
  | p :: rest, best => npArgmaxAux v rest (if v best < v p then p else best)

/-- `np.unravel_index(local.argmax(), local.shape)`: the first coordinate of
`l` (row-major) attaining the maximum of `v` on `l`.  (`np.argmax` fails on an
empty array; the junk value at `l = []` is never reached under the
positive-window hypotheses.) -/
def npArgmax (v : ℕ × ℕ → ℚ) (l : List (ℕ × ℕ)) : ℕ × ℕ :=
  npArgmaxAux v l (l.headD (0, 0))

/-- Value of input plane `x[n, c]` at a `ℕ` coordinate pair, `0` out of range
(never accessed out of range under the theorems' hypotheses). -/
def xAt {N C H W : ℕ} (x : Fin N → Fin C → Fin H → Fin W → ℚ)
    (n : Fin N) (c : Fin C) (h w : ℕ) : ℚ :=
  if hb : h < H ∧ w < W then x n c ⟨h, hb.1⟩ ⟨w, hb.2⟩ else 0

/-- The window values of `x[n, c, hs:he, ws:we]` for the pooling window at
output position `(i, j)`, as a function of the window coordinate. -/
def poolWindowVal {N C H W : ℕ} (x : Fin N → Fin C → Fin H → Fin W → ℚ)
    (stride : ℕ) (n : Fin N) (c : Fin C) (i j : ℕ) : ℕ × ℕ → ℚ :=
  fun ab => xAt x n c (i * stride + ab.1) (j * stride + ab.2)

/-- `max_idx = np.unravel_index(local.argmax(), local.shape)` for the window
at output position `(i, j)`. -/
def poolMaxIdx {N C H W : ℕ} (x : Fin N → Fin C → Fin H → Fin W → ℚ)
    (ph pw stride : ℕ) (n : Fin N) (c : Fin C) (i j : ℕ) : ℕ × ℕ :=
  npArgmax (poolWindowVal x stride n c i j) (windowIdx ph pw)

/-- `np.max` over a row-major list of values (the maximum of a nonempty
window; junk on an empty list, which `np.max` rejects). -/
def npMaxList (l : List ℚ) : ℚ :=
  l.foldl max (l.headD 0)

/-- `max_pool_forward_naive(x, pool_param)`: `out[n, c, i, j]` is the maximum
of the window `x[n, c, hs:he, ws:we]`.  The cache is `(x, pool_param)`
verbatim. -/
def max_pool_forward_naive {N C H W : ℕ}
    (x : Fin N → Fin C → Fin H → Fin W → ℚ) (ph pw stride : ℕ) :
    Fin N → Fin C → ℕ → ℕ → ℚ :=
  fun n c i j =>
    npMaxList ((windowIdx ph pw).map (poolWindowVal x stride n c i j))

/-- The output coordinates `(i, j)`, `i < H'`, `j < W'`, in the iteration
order of the backward double loop. -/
def poolCoords (Hp Wp : ℕ) : List (ℕ × ℕ) :=
  (List.range Hp).flatMap fun i => (List.range Wp).map fun j => (i, j)

/-- One accumulation step of the backward loop body
`dx[n, c, hs:he, ws:we] += dout[n, c, i, j] * x_mask`: position `(h, w)`
receives `dout[n, c, i, j]` iff it lies in the window at `(i, j)` and its
window coordinate is the argmax of that window. -/
def poolBackStep {N C H W : ℕ} (x : Fin N → Fin C → Fin H → Fin W → ℚ)
    (ph pw stride : ℕ) (dout : Fin N → Fin C → ℕ → ℕ → ℚ)
    (n : Fin N) (c : Fin C) (ij : ℕ × ℕ) (h w : ℕ) : ℚ :=
  if ij.1 * stride ≤ h ∧ h < ij.1 * stride + ph
      ∧ ij.2 * stride ≤ w ∧ w < ij.2 * stride + pw
      ∧ (h - ij.1 * stride, w - ij.2 * stride) = poolMaxIdx x ph pw stride n c ij.1 ij.2
  then dout n c ij.1 ij.2 else 0

/-- `max_pool_backward_naive(dout, cache)`: starting from `dx = np.zeros`,
fold the accumulation step over all output coordinates.  `H'` and `W'` are
`1 + (H - pool_h) / stride` and `1 + (W - pool_w) / stride` with Python 2
integer division. -/
def max_pool_backward_naive {N C H W : ℕ} (dout : Fin N → Fin C → ℕ → ℕ → ℚ)
    (x : Fin N → Fin C → Fin H → Fin W → ℚ) (ph pw stride : ℕ) :
    Fin N → Fin C → ℕ → ℕ → ℚ :=
  fun n c =>
    (poolCoords (1 + (H - ph) / stride) (1 + (W - pw) / stride)).foldl
      (fun dx ij => fun h w => dx h w + poolBackStep x ph pw stride dout n c ij h w)
      (fun _ _ => 0)

/-! ## Helper lemmas -/

/-- The zeroed label column drops out of the margin row sum: summing the
margin matrix over a row equals summing the unzeroed margins over `j ≠ y i`. -/
theorem svm_margins_row_sum {N C : ℕ} (x : Fin N → Fin C → ℚ)
    (y : Fin N → Fin C) (i : Fin N) :
    ∑ j, svm_margins x y i j
      = ∑ j ∈ (univ : Finset (Fin C)).erase (y i),
          max 0 (x i j - x i (y i) + 1) := by
  rw [← Finset.add_sum_erase _ _ (mem_univ (y i))]
  rw [show svm_margins x y i (y i) = 0 from if_pos rfl, zero_add]
  refine Finset.sum_congr rfl fun j hj => ?_
  rw [svm_margins, correct_class_scores, if_neg (Finset.ne_of_mem_erase hj)]

/-- The boolean row count `num_pos` equals the cardinality of the set of
positive-margin classes `j ≠ y i`. -/
theorem svm_num_pos_eq_card {N C : ℕ} (x : Fin N → Fin C → ℚ)
    (y : Fin N → Fin C) (i : Fin N) :
    svm_num_pos x y i = svmClaimNumPos x y i := by
  rw [svm_num_pos, svmClaimNumPos, Finset.sum_boole]
  norm_num
  congr 1
  ext j
  by_cases hj : j = y i
  · subst hj
    simp [svm_margins]
  · simp [svm_margins, correct_class_scores, hj, lt_max_iff]

/-! ## Claim C4 (corrected: the code divides by `N + eps`, not by `N`) -/

/-- C4 counterexample: at `x = [[0, 0]]`, `y = [0]` (`N = 1`, `C = 2`), the
claimed loss (margin sum divided by `N`, i.e. `svmClaimLoss` at `eps = 0`)
is `1`, but `svm_loss` with its default `eps = 1e-3` returns
`1 / 1.001 = 1000/1001 ≠ 1`. -/
theorem C4_counterexample :
    (@svm_loss 1 2 (fun _ _ => 0) (fun _ => 0) 1e-3).1
      ≠ @svmClaimLoss 1 2 (fun _ _ => 0) (fun _ => 0) 0 := by
  rw [svm_loss, svmClaimLoss,
    show ((univ : Finset (Fin 2)).erase 0) = {1} from by decide]
  norm_num [Fin.sum_univ_succ, svm_margins, correct_class_scores]

/-- C4 (amended): `svm_loss x y eps` returns the loss
`(∑ i, ∑ j ≠ y i, max 0 (x i j - x i (y i) + 1)) / (N + eps)` (with `eps`
defaulting to `1e-3`), and the gradient with `dx[i, y i] = -(count of
positive margins of row i)` and `dx[i, j] = 1` at every other positive-margin
class, all divided by `N + eps` — the claim's formulas with denominator
`N + eps` in place of `N`. -/
theorem C4_svm_loss_formula {N C : ℕ} (x : Fin N → Fin C → ℚ)
    (y : Fin N → Fin C) (eps : ℚ) :
    svm_loss x y eps
      = (svmClaimLoss x y eps,
         fun i j =>
           (if j = y i then -(svmClaimNumPos x y i)
            else if 0 < max 0 (x i j - x i (y i) + 1) then 1 else 0)
             / ((N : ℚ) + eps)) := by
  refine Prod.ext ?_ ?_
  · show (∑ i, ∑ j, svm_margins x y i j) / ((N : ℚ) + eps) = svmClaimLoss x y eps
    rw [svmClaimLoss]
    congr 1
    exact Finset.sum_congr rfl fun i _ => svm_margins_row_sum x y i
  · funext i j
    show ((if 0 < svm_margins x y i j then (1:ℚ) else 0)
        - (if j = y i then svm_num_pos x y i else 0)) / ((N : ℚ) + eps)
      = (if j = y i then -(svmClaimNumPos x y i)
         else if 0 < max 0 (x i j - x i (y i) + 1) then 1 else 0) / ((N : ℚ) + eps)
    by_cases hj : j = y i
    · rw [if_pos hj, if_pos hj, hj,
        show svm_margins x y i (y i) = 0 from if_pos rfl, svm_num_pos_eq_card]
      norm_num
    · rw [if_neg hj, if_neg hj, svm_margins, correct_class_scores, if_neg hj,
        sub_zero]

/-! ## Claim C10 (confirmed) -/

/-- C10: every row of the gradient returned by `svm_loss` sums exactly to
zero: the `+1` entries at positive-margin classes cancel the `-num_pos`
entry at the true class (stated for every `eps`, in particular the default
`1e-3`). -/
theorem C10_svm_dx_row_sum_zero {N C : ℕ} (x : Fin N → Fin C → ℚ)
    (y : Fin N → Fin C) (eps : ℚ) (i : Fin N) :
    ∑ j, (svm_loss x y eps).2 i j = 0 := by
  simp only [svm_loss]
  rw [← Finset.sum_div, Finset.sum_sub_distrib,
    Finset.sum_ite_eq' univ (y i) fun _ => svm_num_pos x y i]
  simp [svm_num_pos]

/-! ## Claim C2 (corrected: only batchnorm raises an invalid-argument error;
dropout fails with an `AttributeError` instead) -/

/-- C2 counterexample: at the invalid mode `"banana"`, `dropout_forward` does
not fail with an invalid-argument (`ValueError`) failure as the claim states —
it fails with the `AttributeError` raised by `out.astype` on the unassigned
`out = None`. -/
theorem C2_counterexample :
    resultIsValueError
        (@dropout_forward 1 (fun _ => 0) ⟨0, "banana", none⟩ (fun _ => 0)) = false
      ∧ @dropout_forward 1 (fun _ => 0) ⟨0, "banana", none⟩ (fun _ => 0)
        = .error (.attributeError "NoneType object has no attribute astype") :=
  ⟨rfl, rfl⟩

/-- C2 (amended): for every mode other than `"train"` and `"test"`, both
functions fail, but only `batchnorm_forward` raises the explicit
invalid-argument `ValueError`; `dropout_forward` leaves its output unassigned
and fails with an `AttributeError` on `None.astype`. -/
theorem C2_invalid_mode_fails {N D n : ℕ} (mode : String)
    (h1 : mode ≠ "train") (h2 : mode ≠ "test")
    (x : Fin N → Fin D → ℝ) (gamma beta : Fin D → ℝ)
    (eps momentum : Option ℝ) (rm rv : Option (Fin D → ℝ))
    (xd : Fin n → ℚ) (pq : ℚ) (seed : Option ℕ) (rng : Fin n → ℚ) :
    batchnorm_forward x gamma beta ⟨mode, eps, momentum, rm, rv⟩
        = .error (.valueError ("Invalid forward batchnorm mode " ++ mode))
      ∧ dropout_forward xd ⟨pq, mode, seed⟩ rng
        = .error (.attributeError "NoneType object has no attribute astype") := by
  constructor
  · simp [batchnorm_forward, h1, h2]
  · simp [dropout_forward, h1, h2]

/-- C2 witness: the amended theorem applied at mode `"banana"` with concrete
`1 × 1` batchnorm inputs and a concrete length-1 dropout input. -/
theorem C2_invalid_mode_fails_witness :
    ("banana" : String) ≠ "train" ∧ ("banana" : String) ≠ "test"
      ∧ (@batchnorm_forward 1 1 (fun _ _ => 0) (fun _ => 0) (fun _ => 0)
            ⟨"banana", none, none, none, none⟩
          = .error (.valueError ("Invalid forward batchnorm mode " ++ "banana"))
        ∧ @dropout_forward 1 (fun _ => 0) ⟨0, "banana", none⟩ (fun _ => 0)
          = .error (.attributeError "NoneType object has no attribute astype")) :=
  ⟨by decide, by decide,
   C2_invalid_mode_fails "banana" (by decide) (by decide)
     (fun _ _ => 0) (fun _ => 0) (fun _ => 0) none none none none
     (fun _ => 0) 0 none (fun _ => 0)⟩

/-! ## Claim C8 (confirmed) -/

/-- C8: dropout with `p = 0` returns an output exactly equal to `x` in both
`"train"` and `"test"` mode — with `p = 0` every RNG draw (nonnegative, as
`np.random.rand` yields values in `[0, 1)`) passes the keep test, and the
inverted scaling divides by `1 - 0 = 1`. -/
theorem C8_dropout_p_zero_identity {n : ℕ} (x : Fin n → ℚ) (dp : DropoutParam)
    (rng : Fin n → ℚ) (hp : dp.p = 0)
    (hmode : dp.mode = "train" ∨ dp.mode = "test")
    (hrng : ∀ i, 0 ≤ rng i) :
    (dropout_forward x dp rng).map Prod.fst = .ok x := by
  rcases hmode with h | h
  · simp only [dropout_forward, h, if_pos, Except.map]
    congr 1
    funext i
    rw [hp]
    have hi := hrng i
    simp [hi]
  · have h' : dp.mode ≠ "train" := by rw [h]; decide
    simp [dropout_forward, Except.map, h, h']

/-- C8 witness: the identity at `x = [7]`, `p = 0`, train mode, RNG draw
`[1/2]`. -/
theorem C8_dropout_p_zero_identity_witness :
    (⟨0, "train", none⟩ : DropoutParam).p = 0
      ∧ ((⟨0, "train", none⟩ : DropoutParam).mode = "train"
          ∨ (⟨0, "train", none⟩ : DropoutParam).mode = "test")
      ∧ (∀ i : Fin 1, (0 : ℚ) ≤ (fun _ => (1 : ℚ)/2) i)
      ∧ (@dropout_forward 1 (fun _ => 7) ⟨0, "train", none⟩
          (fun _ => (1 : ℚ)/2)).map Prod.fst = .ok (fun _ => 7) :=
  ⟨rfl, Or.inl rfl, fun _ => by norm_num,
   C8_dropout_p_zero_identity (fun _ => 7) ⟨0, "train", none⟩
     (fun _ => (1 : ℚ)/2) rfl (Or.inl rfl) (fun _ => by norm_num)⟩

/-! ## Claim C9 (confirmed) -/

/-- C9: a test-mode call of `batchnorm_forward` returns `cache = None` — only
the training branch assigns the cache consumed by `batchnorm_backward`. -/
theorem C9_test_mode_cache_none {N D : ℕ} (x : Fin N → Fin D → ℝ)
    (gamma beta : Fin D → ℝ) (p : BNParam D) (h : p.mode = "test") :
    (batchnorm_forward x gamma beta p).map (fun r => r.2.1) = .ok none := by
  have h' : p.mode ≠ "train" := by rw [h]; decide
  simp [batchnorm_forward, Except.map, h, h']

/-- C9 witness: a concrete `1 × 1` test-mode call. -/
theorem C9_test_mode_cache_none_witness :
    (⟨"test", none, none, none, none⟩ : BNParam 1).mode = "test"
      ∧ (@batchnorm_forward 1 1 (fun _ _ => 0) (fun _ => 1) (fun _ => 0)
          ⟨"test", none, none, none, none⟩).map (fun r => r.2.1) = .ok none :=
  ⟨rfl, C9_test_mode_cache_none (fun _ _ => 0) (fun _ => 1) (fun _ => 0)
    ⟨"test", none, none, none, none⟩ rfl⟩

/-! ## Claim C7 (confirmed) -/

/-- C7: in train mode `batchnorm_forward` writes
`running = momentum * running + (1 - momentum) * batch_stat` back into
`bn_param` for both the mean and the (biased) variance, with `momentum`
defaulting to `0.9` and the absent running statistics defaulting to zeros;
a test-mode call returns `bn_param` unchanged. -/
theorem C7_running_stats_update {N D : ℕ} (x : Fin N → Fin D → ℝ)
    (gamma beta : Fin D → ℝ) (p : BNParam D) :
    (p.mode = "train" →
      (batchnorm_forward x gamma beta p).map
          (fun r => ((r.2.2).running_mean, (r.2.2).running_var))
        = .ok (some fun d =>
                 p.momentum.getD 0.9 * (p.running_mean.getD fun _ => 0) d
                   + (1 - p.momentum.getD 0.9) * bnSampleMean x d,
               some fun d =>
                 p.momentum.getD 0.9 * (p.running_var.getD fun _ => 0) d
                   + (1 - p.momentum.getD 0.9) * bnSampleVar x d))
      ∧ (p.mode = "test" →
          (batchnorm_forward x gamma beta p).map (fun r => r.2.2) = .ok p) := by
  constructor
  · intro h
    simp [batchnorm_forward, Except.map, h]
  · intro h
    have h' : p.mode ≠ "train" := by rw [h]; decide
    simp [batchnorm_forward, Except.map, h, h']

/-- C7 witness: the train-mode running-statistics update at a concrete
`1 × 1` input with all-default optional keys. -/
theorem C7_running_stats_update_witness :
    (⟨"train", none, none, none, none⟩ : BNParam 1).mode = "train"
      ∧ (@batchnorm_forward 1 1 (fun _ _ => 2) (fun _ => 1) (fun _ => 0)
            ⟨"train", none, none, none, none⟩).map
          (fun r => ((r.2.2).running_mean, (r.2.2).running_var))
        = .ok (some fun d =>
                 (Option.none.getD (0.9 : ℝ))
                     * ((Option.none.getD (fun _ : Fin 1 => (0 : ℝ))) d)
                   + (1 - Option.none.getD (0.9 : ℝ))
                     * @bnSampleMean 1 1 (fun _ _ => 2) d,
               some fun d =>
                 (Option.none.getD (0.9 : ℝ))
                     * ((Option.none.getD (fun _ : Fin 1 => (0 : ℝ))) d)
                   + (1 - Option.none.getD (0.9 : ℝ))
                     * @bnSampleVar 1 1 (fun _ _ => 2) d) :=
  ⟨rfl, (C7_running_stats_update (fun _ _ => 2) (fun _ => 1) (fun _ => 0)
    ⟨"train", none, none, none, none⟩).1 rfl⟩

/-! ## Claim C3 (corrected: the code divides by `N + eps`, not by `N`) -/

/-- C3 counterexample: at `x = [[0, 0]]`, `y = [0]` (`N = 1`, `C = 2`), the
gradient entry `dx[0, 1]` returned by `softmax_loss` differs from the claimed
value `(probs[0,1] - 0) / N`: the code divides by `N + eps = 1 + 1e-8`
instead of `N = 1`, and the probability entry is strictly positive. -/
theorem C3_counterexample :
    (softmax_loss (N := 1) (C := 2) (fun _ _ => 0) (fun _ => 0) 1e-8).2 0 1
      ≠ (smProbs (N := 1) (C := 2) (fun _ _ => 0) 1e-8 0 1
          - if (1 : Fin 2) = 0 then 1 else 0) / (1 : ℝ) := by
  have hc : 0 < smProbs (N := 1) (C := 2) (fun _ _ => 0) 1e-8 0 1 := by
    rw [smProbs]
    positivity
  simp only [softmax_loss]
  rw [if_neg (by decide)]
  intro heq
  rw [sub_zero, div_one] at heq
  have h2 : ((1 : ℕ) : ℝ) + 1e-8 ≠ 0 := by norm_num
  rw [div_eq_iff h2] at heq
  push_cast at heq
  nlinarith [hc]

/-- C3 (amended): `softmax_loss x y eps` subtracts the true row maximum
before exponentiating (`rowMax` bounds every row entry and is attained),
adds `eps` (default `1e-8`) to the normalized probabilities before the log,
and returns `loss = -(∑ i, log probs[i, y i]) / (N + eps)` and
`dx = (probs - one-hot(y)) / (N + eps)` — the claim's formulas with
denominator `N + eps` in place of `N`. -/
theorem C3_softmax_loss_formula {N C : ℕ} [NeZero C] (x : Fin N → Fin C → ℝ)
    (y : Fin N → Fin C) (eps : ℝ) :
    (∀ (i : Fin N) (j : Fin C), x i j ≤ rowMax x i)
      ∧ (∀ i : Fin N, ∃ j : Fin C, rowMax x i = x i j)
      ∧ softmax_loss x y eps
        = (-(∑ i, Real.log
              (Real.exp (x i (y i) - rowMax x i)
                / (∑ j, Real.exp (x i j - rowMax x i)) + eps)) / ((N : ℝ) + eps),
           fun i j =>
             ((Real.exp (x i j - rowMax x i)
                / (∑ j', Real.exp (x i j' - rowMax x i)) + eps)
               - if j = y i then 1 else 0) / ((N : ℝ) + eps)) := by
  refine ⟨fun i j => Finset.le_sup' (x i) (mem_univ j), fun i => ?_, rfl⟩
  obtain ⟨b, -, hb⟩ := Finset.exists_mem_eq_sup'
    (⟨⟨0, Nat.pos_of_ne_zero (NeZero.ne C)⟩, mem_univ _⟩ :
      (univ : Finset (Fin C)).Nonempty) (x i)
  exact ⟨b, hb⟩

/-- C3 witness: the amended theorem instantiated at `x = [[0, 0]]`,
`y = [0]`, `eps = 1e-8`. -/
theorem C3_softmax_loss_formula_witness :
    (∀ (i : Fin 1) (_j : Fin 2), (0 : ℝ) ≤ rowMax (N := 1) (C := 2) (fun _ _ => 0) i)
      ∧ (∀ i : Fin 1, ∃ _j : Fin 2,
          rowMax (N := 1) (C := 2) (fun _ _ => 0) i = 0)
      ∧ softmax_loss (N := 1) (C := 2) (fun _ _ => 0) (fun _ => 0) 1e-8
        = (-(∑ i : Fin 1, Real.log
              (Real.exp ((0 : ℝ) - rowMax (N := 1) (C := 2) (fun _ _ => 0) i)
                / (∑ _j : Fin 2,
                    Real.exp ((0 : ℝ) - rowMax (N := 1) (C := 2) (fun _ _ => 0) i))
                + 1e-8)) / ((1 : ℝ) + 1e-8),
           fun i j =>
             ((Real.exp ((0 : ℝ) - rowMax (N := 1) (C := 2) (fun _ _ => 0) i)
                / (∑ _j' : Fin 2,
                    Real.exp ((0 : ℝ) - rowMax (N := 1) (C := 2) (fun _ _ => 0) i))
                + 1e-8)
               - if j = (0 : Fin 2) then 1 else 0) / ((1 : ℝ) + 1e-8)) := by
  have h := C3_softmax_loss_formula (N := 1) (C := 2)
    (fun _ _ => 0) (fun _ => 0) 1e-8
  exact ⟨fun i j => h.1 i j, fun i => (h.2.1 i).imp fun j hj => hj, by
    have h3 := h.2.2
    norm_num at h3 ⊢
    exact h3⟩

/-! ## Claim C1 (confirmed) -/

/-- Per-column algebraic core of the batchnorm backward equivalence: with
`t = dout` and `c = x - mean` along one feature column, the staged gradient
expression equals the closed-form one, given `s ≠ 0`, `n ≠ 0`,
`∑ c = 0` and `s ^ 2 = v`. -/
theorem bn_dx_core (n : ℕ) (t c : Fin n → ℝ) (γ s v : ℝ) (hs : s ≠ 0)
    (hn : (n : ℝ) ≠ 0) (hc : ∑ j, c j = 0) (hs2 : s ^ 2 = v) (i : Fin n) :
    t i * γ / s + (∑ j, t j * γ * (-1) * c j / s ^ 2) * 0.5 * s⁻¹ * 1 / n * 2 * c i
      + (∑ j, (t j * γ / s
          + (∑ k, t k * γ * (-1) * c k / s ^ 2) * 0.5 * s⁻¹ * 1 / n * 2 * c j) * (-1))
        * 1 / n
    = 1 / n * γ * s⁻¹ * (n * t i - (∑ j, t j) - c i / v * (∑ j, t j * c j)) := by
  subst hs2
  have hA : (∑ j, t j * γ * (-1) * c j / s ^ 2)
      = (∑ j, t j * c j) * (γ * (-1) / s ^ 2) := by
    rw [Finset.sum_mul]
    exact Finset.sum_congr rfl fun j _ => by ring
  rw [hA]
  have hB : (∑ j, (t j * γ / s
        + (∑ k, t k * c k) * (γ * (-1) / s ^ 2) * 0.5 * s⁻¹ * 1 / n * 2 * c j) * (-1))
      = (∑ j, t j) * (γ / s * (-1))
        + ((∑ k, t k * c k) * (γ * (-1) / s ^ 2) * 0.5 * s⁻¹ * 1 / n * 2 * (-1)) * (∑ j, c j) := by
    conv_rhs => rw [Finset.sum_mul, Finset.mul_sum, ← Finset.sum_add_distrib]
    exact Finset.sum_congr rfl fun j _ => by ring
  rw [hB, hc, mul_zero, add_zero]
  field_simp
  ring

/-- The two batchnorm backward passes agree on every training cache with
positive `eps` (centered columns sum to zero exactly, and
`sqrt (var + eps)` is positive). -/
theorem bn_backward_eq_alt {N D : ℕ} (x : Fin N → Fin D → ℝ)
    (gamma beta : Fin D → ℝ) (eps : ℝ) (heps : 0 < eps)
    (dout : Fin N → Fin D → ℝ) :
    batchnorm_backward dout (bnTrainCache x gamma beta eps)
      = batchnorm_backward_alt dout (bnTrainCache x gamma beta eps) := by
  rw [batchnorm_backward, batchnorm_backward_alt]
  refine Prod.ext ?_ rfl
  funext i d
  simp only [bnTrainCache, bnXHat, bnXMean, bnSampleVarSqrt]
  have hn : (N : ℝ) ≠ 0 := by
    have := i.pos
    positivity
  have hvpos : 0 < bnSampleVar x d + eps := by
    have hv : 0 ≤ bnSampleVar x d := by
      rw [bnSampleVar]
      have hnn : 0 ≤ ∑ j, bnXMeanSqu x j d :=
        Finset.sum_nonneg fun j _ => by rw [bnXMeanSqu]; positivity
      positivity
    linarith
  have hs : Real.sqrt (bnSampleVar x d + eps) ≠ 0 :=
    ne_of_gt (Real.sqrt_pos.mpr hvpos)
  have hs2 : (Real.sqrt (bnSampleVar x d + eps)) ^ 2 = bnSampleVar x d + eps :=
    Real.sq_sqrt (le_of_lt hvpos)
  have hc : ∑ j, (x j d - bnSampleMean x d) = 0 := by
    rw [Finset.sum_sub_distrib, Finset.sum_const, card_univ, Fintype.card_fin,
      bnSampleMean, nsmul_eq_mul]
    field_simp
  exact bn_dx_core N (fun j => dout j d) (fun j => x j d - bnSampleMean x d)
    (gamma d) (Real.sqrt (bnSampleVar x d + eps)) (bnSampleVar x d + eps)
    hs hn hc hs2 i

/-- C1: every training-mode call of `batchnorm_forward` (with positive
effective `eps`) produces the cache `bnTrainCache`, and on that cache
`batchnorm_backward` and `batchnorm_backward_alt` return identical
`(dx, dgamma, dbeta)` — exactly, over the embedded real arithmetic. -/
theorem C1_backward_eq_backward_alt {N D : ℕ} (x : Fin N → Fin D → ℝ)
    (gamma beta : Fin D → ℝ) (p : BNParam D) (dout : Fin N → Fin D → ℝ)
    (hmode : p.mode = "train") (heps : 0 < p.eps.getD 1e-5) :
    (batchnorm_forward x gamma beta p).map (fun r => r.2.1)
        = .ok (some (bnTrainCache x gamma beta (p.eps.getD 1e-5)))
      ∧ batchnorm_backward dout (bnTrainCache x gamma beta (p.eps.getD 1e-5))
        = batchnorm_backward_alt dout (bnTrainCache x gamma beta (p.eps.getD 1e-5)) :=
  ⟨by simp [batchnorm_forward, Except.map, hmode],
   bn_backward_eq_alt x gamma beta (p.eps.getD 1e-5) heps dout⟩

/-- C1 witness: the equivalence at the concrete `1 × 1` training call with
`x = [[2]]`, `gamma = beta = [1]`, `eps = 1`, `dout = [[3]]`. -/
theorem C1_backward_eq_backward_alt_witness :
    (⟨"train", some 1, none, none, none⟩ : BNParam 1).mode = "train"
      ∧ (0 : ℝ) < (⟨"train", some 1, none, none, none⟩ : BNParam 1).eps.getD 1e-5
      ∧ ((@batchnorm_forward 1 1 (fun _ _ => 2) (fun _ => 1) (fun _ => 1)
            ⟨"train", some 1, none, none, none⟩).map (fun r => r.2.1)
          = .ok (some (@bnTrainCache 1 1 (fun _ _ => 2) (fun _ => 1) (fun _ => 1)
              ((some (1 : ℝ)).getD 1e-5)))
        ∧ @batchnorm_backward 1 1 (fun _ _ => 3)
            (@bnTrainCache 1 1 (fun _ _ => 2) (fun _ => 1) (fun _ => 1)
              ((some (1 : ℝ)).getD 1e-5))
          = @batchnorm_backward_alt 1 1 (fun _ _ => 3)
            (@bnTrainCache 1 1 (fun _ _ => 2) (fun _ => 1) (fun _ => 1)
              ((some (1 : ℝ)).getD 1e-5))) :=
  ⟨rfl, by simp,
   C1_backward_eq_backward_alt (fun _ _ => 2) (fun _ => 1) (fun _ => 1)
     ⟨"train", some 1, none, none, none⟩ (fun _ _ => 3) rfl (by simp)⟩

/-! ## Claim C5 (confirmed) -/

/-- The sum of the flattened window products equals the triple sum over
channel and filter coordinates. -/
theorem convWindowProducts_sum {N C H W F HH WW : ℕ}
    (x : Fin N → Fin C → Fin H → Fin W → ℚ)
    (w : Fin F → Fin C → Fin HH → Fin WW → ℚ)
    (stride pad : ℕ) (n : Fin N) (k : Fin F) (i j : ℕ) :
    (convWindowProducts x w stride pad n k i j).sum
      = ∑ c, ∑ hh, ∑ ww,
          xPad x pad n c (i * stride + hh.val) (j * stride + ww.val)
            * w k c hh ww := by
  rw [convWindowProducts, List.sum_flatten, List.map_ofFn]
  rw [show (List.sum ∘ fun c : Fin C =>
      (List.ofFn fun hh : Fin HH =>
        List.ofFn fun ww : Fin WW =>
          xPad x pad n c (i * stride + hh.val) (j * stride + ww.val)
            * w k c hh ww).flatten)
    = fun c : Fin C =>
        ((List.ofFn fun hh : Fin HH =>
          List.ofFn fun ww : Fin WW =>
            xPad x pad n c (i * stride + hh.val) (j * stride + ww.val)
              * w k c hh ww).flatten).sum from rfl]
  rw [List.sum_ofFn]
  refine Finset.sum_congr rfl fun c _ => ?_
  rw [List.sum_flatten, List.map_ofFn]
  rw [show (List.sum ∘ fun hh : Fin HH =>
      List.ofFn fun ww : Fin WW =>
        xPad x pad n c (i * stride + hh.val) (j * stride + ww.val)
          * w k c hh ww)
    = fun hh : Fin HH =>
        (List.ofFn fun ww : Fin WW =>
          xPad x pad n c (i * stride + hh.val) (j * stride + ww.val)
            * w k c hh ww).sum from rfl]
  rw [List.sum_ofFn]
  exact Finset.sum_congr rfl fun hh _ => List.sum_ofFn

/-- C5: with evenly dividing windows, `conv_forward_naive` has output shape
`(N, F, 1 + (H + 2p - HH)/s, 1 + (W + 2p - WW)/s)` (carried by the output
type) and every element equals the receptive-window sum of the zero-padded
input times the filter, plus the bias; in particular, for `x` of shape
`(2, 3, 4, 4)`, an all-ones `(2, 3, 3, 3)` filter, stride 1 and pad 1, the
spatial output size is `4 × 4` and every element is the receptive-field sum
plus the bias. -/
theorem C5_conv_forward_formula {N C H W F HH WW : ℕ}
    (x : Fin N → Fin C → Fin H → Fin W → ℚ)
    (w : Fin F → Fin C → Fin HH → Fin WW → ℚ) (b : Fin F → ℚ)
    (stride pad : ℕ) (_hs : 0 < stride)
    (_hdH : stride ∣ H + 2 * pad - HH) (_hdW : stride ∣ W + 2 * pad - WW)
    (_hHH : HH ≤ H + 2 * pad) (_hWW : WW ≤ W + 2 * pad) :
    (∀ (n : Fin N) (k : Fin F) (i : Fin (convOutDim H HH pad stride))
        (j : Fin (convOutDim W WW pad stride)),
      conv_forward_naive x w b stride pad n k i j
        = (∑ c, ∑ hh, ∑ ww,
            xPad x pad n c (i.val * stride + hh.val) (j.val * stride + ww.val)
              * w k c hh ww) + b k)
      ∧ convOutDim 4 3 1 1 = 4
      ∧ (∀ (x2 : Fin 2 → Fin 3 → Fin 4 → Fin 4 → ℚ) (b2 : Fin 2 → ℚ)
          (n : Fin 2) (k : Fin 2) (i : Fin (convOutDim 4 3 1 1))
          (j : Fin (convOutDim 4 3 1 1)),
          conv_forward_naive x2 (fun _ _ _ _ => 1) b2 1 1 n k i j
            = (∑ c : Fin 3, ∑ hh : Fin 3, ∑ ww : Fin 3,
                xPad x2 1 n c (i.val + hh.val) (j.val + ww.val)) + b2 k) := by
  refine ⟨fun n k i j => ?_, rfl, fun x2 b2 n k i j => ?_⟩
  · rw [conv_forward_naive, convWindowProducts_sum]
  · rw [conv_forward_naive, convWindowProducts_sum]
    simp [mul_one]

/-- C5 witness: the formula at the concrete scenario — all-ones input of
shape `(2, 3, 4, 4)`, all-ones filter of shape `(2, 3, 3, 3)`, bias `[5, 7]`,
stride 1, pad 1. -/
theorem C5_conv_forward_formula_witness :
    0 < 1 ∧ (1 ∣ 4 + 2 * 1 - 3) ∧ (1 ∣ 4 + 2 * 1 - 3)
      ∧ 3 ≤ 4 + 2 * 1 ∧ 3 ≤ 4 + 2 * 1
      ∧ ((∀ (n : Fin 2) (k : Fin 2) (i : Fin (convOutDim 4 3 1 1))
            (j : Fin (convOutDim 4 3 1 1)),
          @conv_forward_naive 2 3 4 4 2 3 3 (fun _ _ _ _ => (1 : ℚ))
              (fun _ _ _ _ => 1) (fun k' => if k' = 0 then 5 else 7) 1 1 n k i j
            = (∑ c : Fin 3, ∑ hh : Fin 3, ∑ ww : Fin 3,
                @xPad 2 3 4 4 (fun _ _ _ _ => (1 : ℚ)) 1 n c
                    (i.val * 1 + hh.val) (j.val * 1 + ww.val) * 1)
              + (if k = 0 then 5 else 7))
        ∧ convOutDim 4 3 1 1 = 4
        ∧ (∀ (x2 : Fin 2 → Fin 3 → Fin 4 → Fin 4 → ℚ) (b2 : Fin 2 → ℚ)
            (n : Fin 2) (k : Fin 2) (i : Fin (convOutDim 4 3 1 1))
            (j : Fin (convOutDim 4 3 1 1)),
            conv_forward_naive x2 (fun _ _ _ _ => 1) b2 1 1 n k i j
              = (∑ c : Fin 3, ∑ hh : Fin 3, ∑ ww : Fin 3,
                  xPad x2 1 n c (i.val + hh.val) (j.val + ww.val)) + b2 k)) :=
  ⟨by decide, by decide, by decide, by decide, by decide,
   C5_conv_forward_formula (fun _ _ _ _ => 1) (fun _ _ _ _ => 1)
     (fun k' => if k' = 0 then 5 else 7) 1 1 (by decide) (by decide) (by decide)
     (by decide) (by decide)⟩

/-! ## Claim C6 (confirmed) -/

/-- Scan invariant of the argmax fold: the result splits `best :: l` into a
prefix of strictly smaller values, the result itself, and a suffix of values
not exceeding it — i.e. the fold returns the first maximum of `best :: l`. -/
theorem npArgmaxAux_spec (v : ℕ × ℕ → ℚ) :
    ∀ (l : List (ℕ × ℕ)) (best : ℕ × ℕ),
      ∃ pre post : List (ℕ × ℕ),
        best :: l = pre ++ npArgmaxAux v l best :: post
          ∧ (∀ q ∈ pre, v q < v (npArgmaxAux v l best))
          ∧ (∀ q ∈ post, v q ≤ v (npArgmaxAux v l best)) := by
  intro l
  induction l with
  | nil =>
    intro best
    exact ⟨[], [], rfl, by simp, by simp⟩
  | cons p rest ih =>
    intro best
    rw [npArgmaxAux]
    set b' := if v best < v p then p else best with hb'
    obtain ⟨pre', post', heq, hpre, hpost⟩ := ih b'
    set r := npArgmaxAux v rest b' with hr
    have hbb' : v best ≤ v b' := by
      rw [hb']
      split
      · exact le_of_lt ‹v best < v p›
      · exact le_refl _
    have hpb' : v p ≤ v b' := by
      rw [hb']
      split
      · exact le_refl _
      · exact le_of_not_lt ‹¬ v best < v p›
    cases pre' with
    | nil =>
      simp only [List.nil_append] at heq
      have h1 : b' = r := ((List.cons.injEq _ _ _ _).mp heq).1
      have h2 : rest = post' := ((List.cons.injEq _ _ _ _).mp heq).2
      have hb'r : v b' ≤ v r := le_of_eq (congrArg v h1)
      by_cases hcmp : v best < v p
      · refine ⟨[best], post', ?_, ?_, hpost⟩
        · simp only [List.cons_append, List.nil_append]
          congr 1
          rw [← h1, hb', if_pos hcmp, ← h2]
        · intro q hq
          rw [List.mem_singleton] at hq
          subst hq
          exact lt_of_lt_of_le (lt_of_lt_of_le hcmp hpb') hb'r
      · refine ⟨[], p :: post', ?_, by simp, ?_⟩
        · simp only [List.nil_append]
          rw [← h1, hb', if_neg hcmp, ← h2]
        · intro q hq
          rcases List.mem_cons.mp hq with rfl | hq2
          · exact le_trans hpb' hb'r
          · exact hpost q hq2
    | cons a pre'' =>
      simp only [List.cons_append] at heq
      have h1 : b' = a := ((List.cons.injEq _ _ _ _).mp heq).1
      have h2 : rest = pre'' ++ r :: post' := ((List.cons.injEq _ _ _ _).mp heq).2
      have har : v b' < v r := by
        rw [h1]
        exact hpre a (by simp)
      refine ⟨best :: p :: pre'', post', ?_, ?_, hpost⟩
      · simp only [List.cons_append]
        rw [h2]
      · intro q hq
        rcases List.mem_cons.mp hq with rfl | hq2
        · exact lt_of_le_of_lt hbb' har
        · rcases List.mem_cons.mp hq2 with rfl | hq3
          · exact lt_of_le_of_lt hpb' har
          · exact hpre q (by simp [hq3])

/-- `npArgmax` on a nonempty list returns its first maximum: every earlier
element is strictly smaller and every later one is no larger. -/
theorem npArgmax_spec (v : ℕ × ℕ → ℚ) (l : List (ℕ × ℕ)) (hl : l ≠ []) :
    ∃ pre post : List (ℕ × ℕ),
      l = pre ++ npArgmax v l :: post
        ∧ (∀ q ∈ pre, v q < v (npArgmax v l))
        ∧ (∀ q ∈ post, v q ≤ v (npArgmax v l)) := by
  cases l with
  | nil => exact absurd rfl hl
  | cons h t =>
    have he : npArgmax v (h :: t) = npArgmaxAux v t h := by
      rw [npArgmax, List.headD_cons, npArgmaxAux, if_neg (lt_irrefl (v h))]
    rw [he]
    exact npArgmaxAux_spec v t h

/-- The accumulation fold of the pooling backward pass, read at one
position, is the initial value plus the sum of the step contributions. -/
theorem poolFoldl_eq_sum (l : List (ℕ × ℕ)) (g : ℕ × ℕ → ℕ → ℕ → ℚ)
    (init : ℕ → ℕ → ℚ) (h w : ℕ) :
    (l.foldl (fun dx ij => fun h' w' => dx h' w' + g ij h' w') init) h w
      = init h w + (l.map fun ij => g ij h w).sum := by
  induction l generalizing init with
  | nil => simp
  | cons p rest ih =>
    rw [List.foldl_cons, ih]
    simp [add_assoc]

/-- Summing a function over the row-major output-coordinate list equals the
double sum over output rows and columns. -/
theorem sum_map_poolCoords (f : ℕ × ℕ → ℚ) (Hp Wp : ℕ) :
    ((poolCoords Hp Wp).map f).sum
      = ∑ i ∈ range Hp, ∑ j ∈ range Wp, f (i, j) := by
  rw [poolCoords]
  induction Hp with
  | zero => simp
  | succ m ih =>
    rw [List.range_succ, List.flatMap_append, List.map_append, List.sum_append,
      Finset.sum_range_succ, ih]
    congr 1
    simp only [List.flatMap_cons, List.flatMap_nil, List.append_nil, List.map_map]
    rfl

/-- C6: with evenly divisible windows, `max_pool_backward_naive` routes each
`dout[n,c,i,j]` entirely to the single window position selected by the argmax
(all other positions of that window receive zero from that output cell) and
contributions from overlapping windows add; and the selected position is the
first maximum of its window in row-major scan order — strictly greater than
every earlier window value and at least every later one. -/
theorem C6_max_pool_backward_routing {N C H W : ℕ}
    (x : Fin N → Fin C → Fin H → Fin W → ℚ) (dout : Fin N → Fin C → ℕ → ℕ → ℚ)
    (ph pw stride : ℕ) (hph : 0 < ph) (hpw : 0 < pw) (_hs : 0 < stride)
    (_hdH : stride ∣ H - ph) (_hdW : stride ∣ W - pw)
    (_hphH : ph ≤ H) (_hpwW : pw ≤ W)
    (n : Fin N) (c : Fin C) :
    (∀ h w : ℕ,
      max_pool_backward_naive dout x ph pw stride n c h w
        = ∑ i ∈ range (1 + (H - ph) / stride),
            ∑ j ∈ range (1 + (W - pw) / stride),
            if i * stride ≤ h ∧ h < i * stride + ph
                ∧ j * stride ≤ w ∧ w < j * stride + pw
                ∧ (h - i * stride, w - j * stride)
                    = poolMaxIdx x ph pw stride n c i j
            then dout n c i j else 0)
      ∧ (∀ i j : ℕ,
          ∃ pre post : List (ℕ × ℕ),
            windowIdx ph pw = pre ++ poolMaxIdx x ph pw stride n c i j :: post
              ∧ (∀ q ∈ pre,
                  poolWindowVal x stride n c i j q
                    < poolWindowVal x stride n c i j
                        (poolMaxIdx x ph pw stride n c i j))
              ∧ (∀ q ∈ post,
                  poolWindowVal x stride n c i j q
                    ≤ poolWindowVal x stride n c i j
                        (poolMaxIdx x ph pw stride n c i j))) := by
  constructor
  · intro h w
    rw [max_pool_backward_naive, poolFoldl_eq_sum, sum_map_poolCoords]
    simp only [zero_add]
    refine Finset.sum_congr rfl fun i _ => Finset.sum_congr rfl fun j _ => rfl
  · intro i j
    have hmem : ((0, 0) : ℕ × ℕ) ∈ windowIdx ph pw := by
      simp only [windowIdx, List.mem_flatMap, List.mem_map, List.mem_range]
      exact ⟨0, hph, 0, hpw, rfl⟩
    exact npArgmax_spec _ _ (List.ne_nil_of_mem hmem)

/-- C6 witness: the routing theorem at a concrete `(1,1,2,2)` input with a
single `2 × 2` window (stride 2) of equal values — the tie is routed to the
row-major-first position. -/
theorem C6_max_pool_backward_routing_witness :
    0 < 2 ∧ 0 < 2 ∧ 0 < 2 ∧ (2 ∣ 2 - 2) ∧ (2 ∣ 2 - 2) ∧ 2 ≤ 2 ∧ 2 ≤ 2
      ∧ ((∀ h w : ℕ,
          @max_pool_backward_naive 1 1 2 2 (fun _ _ _ _ => 5)
              (fun _ _ _ _ => (1 : ℚ)) 2 2 2 0 0 h w
            = ∑ i ∈ range (1 + (2 - 2) / 2), ∑ j ∈ range (1 + (2 - 2) / 2),
                if i * 2 ≤ h ∧ h < i * 2 + 2 ∧ j * 2 ≤ w ∧ w < j * 2 + 2
                    ∧ (h - i * 2, w - j * 2)
                        = @poolMaxIdx 1 1 2 2 (fun _ _ _ _ => (1 : ℚ)) 2 2 2 0 0 i j
                then (fun (_ : Fin 1) (_ : Fin 1) (_ : ℕ) (_ : ℕ) => (5 : ℚ)) 0 0 i j
                else 0)
        ∧ (∀ i j : ℕ,
            ∃ pre post : List (ℕ × ℕ),
              windowIdx 2 2
                  = pre ++ @poolMaxIdx 1 1 2 2 (fun _ _ _ _ => (1 : ℚ)) 2 2 2 0 0 i j :: post
                ∧ (∀ q ∈ pre,
                    @poolWindowVal 1 1 2 2 (fun _ _ _ _ => (1 : ℚ)) 2 0 0 i j q
                      < @poolWindowVal 1 1 2 2 (fun _ _ _ _ => (1 : ℚ)) 2 0 0 i j
                          (@poolMaxIdx 1 1 2 2 (fun _ _ _ _ => (1 : ℚ)) 2 2 2 0 0 i j))
                ∧ (∀ q ∈ post,
                    @poolWindowVal 1 1 2 2 (fun _ _ _ _ => (1 : ℚ)) 2 0 0 i j q
                      ≤ @poolWindowVal 1 1 2 2 (fun _ _ _ _ => (1 : ℚ)) 2 0 0 i j
                          (@poolMaxIdx 1 1 2 2 (fun _ _ _ _ => (1 : ℚ)) 2 2 2 0 0 i j)))) :=
  ⟨by decide, by decide, by decide, by decide, by decide, by decide, by decide,
   C6_max_pool_backward_routing (fun _ _ _ _ => 1) (fun _ _ _ _ => 5) 2 2 2
     (by decide) (by decide) (by decide) (by decide) (by decide) (by decide)
     (by decide) 0 0⟩
